import Mathlib

/-!
Verification of the dolt branch-control core: the rule store (`Access`,
from go/libraries/doltcore/branch_control/access.go) and the SQL table
editor over it (`BranchControlTable`, from
go/libraries/doltcore/sqle/dtables/branch_control_table.go).

Machine integers are modelled as `Nat` (permissions are a `uint64` bitset;
none of the verified operations can overflow it). Go byte lengths of
strings (`len(s)`) are modelled with `String.utf8ByteSize`. The pattern
matcher, the expression folder and the session accessor live outside the
embedded source files; they are modelled from the specification and marked
as such below.
-/

/-- `Permissions` is the `uint64` flag set of access.go. -/
abbrev Permissions := Nat

/-- `Permissions_Admin` grants unrestricted control over a branch. -/
def Permissions_Admin : Permissions := 1

/-- `Permissions_Write` allows modifying operations on a branch. -/
def Permissions_Write : Permissions := 2

/-- A compiled pattern: the index of its row in the parallel `Values`
array plus the collation-weight sequence of its folded pattern. -/
structure MatchExpression where
  collectionIndex : Nat
  sortOrders : List Nat
  deriving Repr, DecidableEq

instance : Inhabited MatchExpression := ⟨⟨0, []⟩⟩

/-- The user-facing values of a row of the `dolt_branch_control` table. -/
structure AccessValue where
  branch : String
  user : String
  host : String
  permissions : Permissions
  deriving Repr, DecidableEq

instance : Inhabited AccessValue := ⟨⟨"", "", "", 0⟩⟩

/-- One entry of the change journal: an opcode byte plus the logical row.
Modelled from the spec: the binlog implementation is not among the
embedded source files. -/
structure BinlogRow where
  opcode : Nat
  value : AccessValue
  deriving Repr, DecidableEq

/-- The rule store of access.go: four parallel arrays sharing one index
space, the fixed superuser identity, and the embedded change journal.
The Go `RWMutex` field guards concurrency only and carries no data. -/
structure Access where
  binlog : List BinlogRow
  branches : List MatchExpression
  users : List MatchExpression
  hosts : List MatchExpression
  values : List AccessValue
  superUser : String
  superHost : String
  deriving Repr, DecidableEq

/-- The calling principal supplied by the host session. Modelled from the
spec: `session.user()` and `session.host()`; a null session is `none`. -/
structure Session where
  user : String
  host : String
  deriving Repr, DecidableEq

/-- A row handed to the editor: three pattern strings and a permission
bitset, as extracted from `sql.Row` by the editor. -/
structure EditRow where
  branch : String
  user : String
  host : String
  perms : Permissions
  deriving Repr, DecidableEq

/-- Modelled from the spec (§4.1 `fold`): drops disallowed control
characters and collapses runs of consecutive `%` into a single `%`; the
boolean tracks whether the previous kept character was `%`. -/
def foldChars : List Char → Bool → List Char
  | [], _ => []
  | c :: rest, prevPct =>
    if c.toNat < 32 then foldChars rest prevPct
    else if c = '%' then
      (if prevPct then foldChars rest true else '%' :: foldChars rest true)
    else c :: foldChars rest false

/-- Modelled from the spec: `branch_control.FoldExpression`, the pattern
canonicalizer (its implementation is not among the embedded files). -/
def FoldExpression (s : String) : String := ⟨foldChars s.data false⟩

/-- ASCII lowercasing of a whole string, modelling Go `strings.ToLower`
as used by the editor on the branch and host columns. -/
def strLower (s : String) : String := ⟨s.data.map Char.toLower⟩

/-- Fold then lowercase: the editor's canonicalization for the branch and
host columns. -/
def lowerFold (s : String) : String := strLower (FoldExpression s)

/-- Reserved sentinel weight of the `%` wildcard (absorbs any run). -/
def percentSentinel : Nat := 0

/-- Reserved sentinel weight of the `_` wildcard (absorbs one grapheme). -/
def underscoreSentinel : Nat := 1

/-- Modelled from the spec (§3 SortOrders): the collation weight of one
character; `true` selects the case-insensitive collation. Real weights
start at 2 so that they are distinct from the two wildcard sentinels. -/
def charWeight (ci : Bool) (c : Char) : Nat :=
  (if ci then c.toLower else c).toNat + 2

/-- The weight sequence of a concrete candidate string (no character of a
candidate is treated as a wildcard). -/
def candidateWeights (ci : Bool) (s : String) : List Nat :=
  s.data.map (charWeight ci)

/-- Modelled from the spec: `branch_control.ParseExpression` folds the
pattern and maps each character to its weight, sending `%` and `_` to the
reserved sentinels. -/
def ParseExpression (s : String) (ci : Bool) : List Nat :=
  (FoldExpression s).data.map fun c =>
    if c = '%' then percentSentinel
    else if c = '_' then underscoreSentinel
    else charWeight ci c

/-- SQL LIKE matching of a pattern weight sequence against a candidate
weight sequence, with explicit fuel so that the recursion is structural;
every call consumes at least one list element per unit of fuel, so the
top-level fuel below never runs out. -/
def likeMatchF : Nat → List Nat → List Nat → Bool
  | 0, _, _ => false
  | _ + 1, [], cs => cs.isEmpty
  | f + 1, 0 :: ps, cs =>
    likeMatchF f ps cs ||
      (match cs with
       | [] => false
       | _ :: cs2 => likeMatchF f (0 :: ps) cs2)
  | f + 1, 1 :: ps, cs =>
    (match cs with
     | [] => false
     | _ :: cs2 => likeMatchF f ps cs2)
  | f + 1, w :: ps, cs =>
    (match cs with
     | [] => false
     | c :: cs2 => w == c && likeMatchF f ps cs2)

/-- Modelled from the spec (§4.2 pattern semantics): pattern matches
candidate iff the wildcards can absorb graphemes so that every
non-wildcard weight aligns. -/
def likeMatch (pat cand : List Nat) : Bool :=
  likeMatchF (pat.length + cand.length + 1) pat cand

/-- Modelled from the spec (§4.2): the column matcher
`branch_control.Match` returns the `collection_index` of every expression
whose pattern matches the candidate under the given collation. -/
def MatchColumn (exprs : List MatchExpression) (candidate : String) (ci : Bool) : List Nat :=
  (exprs.filter fun e => likeMatch e.sortOrders (candidateWeights ci candidate)).map
    (·.collectionIndex)

/-- `filterBranches` of access.go: the branch expressions sitting at the
given collection indexes. -/
def Access.filterBranches (tbl : Access) (filters : List Nat) : List MatchExpression :=
  if filters.isEmpty then [] else filters.map fun f => tbl.branches.getD f default

/-- `filterUsers` of access.go. -/
def Access.filterUsers (tbl : Access) (filters : List Nat) : List MatchExpression :=
  if filters.isEmpty then [] else filters.map fun f => tbl.users.getD f default

/-- `filterHosts` of access.go. -/
def Access.filterHosts (tbl : Access) (filters : List Nat) : List MatchExpression :=
  if filters.isEmpty then [] else filters.map fun f => tbl.hosts.getD f default

/-- `gatherPermissions` of access.go: bitwise OR of the permissions of the
rows at the given collection indexes. -/
def Access.gatherPermissions (tbl : Access) (collectionIndexes : List Nat) : Permissions :=
  collectionIndexes.foldl (fun perms i => perms ||| (tbl.values.getD i default).permissions) 0

/-- `Access.Match` of access.go: the superuser short-circuit followed by
the three-pass pipeline (users, then hosts of the survivors, then
branches of those survivors). -/
def Access.Match (tbl : Access) (branch user host : String) : Bool × Permissions :=
  if tbl.superUser == user && tbl.superHost == host then (true, Permissions_Admin)
  else
    let filteredIndexes1 := MatchColumn tbl.users user false
    let filteredHosts := tbl.filterHosts filteredIndexes1
    let filteredIndexes2 := MatchColumn filteredHosts host true
    let filteredBranches := tbl.filterBranches filteredIndexes2
    let filteredIndexes3 := MatchColumn filteredBranches branch true
    (decide (0 < filteredIndexes3.length), tbl.gatherPermissions filteredIndexes3)

/-- The linear scan inside `Access.GetIndex`: the first position whose
row carries exactly the given folded triple. -/
def Access.findTriple (tbl : Access) (branchExpr userExpr hostExpr : String) : Option Nat :=
  tbl.values.findIdx? fun v =>
    v.branch == branchExpr && v.user == userExpr && v.host == hostExpr

/-- `Access.GetIndex` of access.go: the index of the given folded triple,
or `-1` when absent. -/
def Access.GetIndex (tbl : Access) (branchExpr userExpr hostExpr : String) : Int :=
  match tbl.findTriple branchExpr userExpr hostExpr with
  | some i => Int.ofNat i
  | none => -1

/-- The two failure messages of `Access.Deserialize`. -/
inductive DeserializeErr where
  | nonEmptyTable
  | differingFieldLengths
  deriving Repr, DecidableEq

/-- A decoded flatbuffer for the access table: the embedded binlog and the
four parallel vectors. Flatbuffer transport errors are not representable
over already-structured input. -/
structure SerialAccess where
  binlog : List BinlogRow
  branches : List MatchExpression
  users : List MatchExpression
  hosts : List MatchExpression
  values : List AccessValue
  deriving Repr, DecidableEq

/-- `Access.Deserialize` of access.go: refuses a non-empty destination,
then refuses differing field lengths, then populates the store from the
input. -/
def Access.Deserialize (tbl : Access) (fb : SerialAccess) : Except DeserializeErr Access :=
  if tbl.values.length ≠ 0 then .error .nonEmptyTable
  else if fb.branches.length ≠ fb.users.length ∨ fb.users.length ≠ fb.hosts.length ∨
      fb.hosts.length ≠ fb.values.length then .error .differingFieldLengths
  else .ok { tbl with
    binlog := fb.binlog
    branches := fb.branches
    users := fb.users
    hosts := fb.hosts
    values := fb.values }

/-- The error surface of the table editor. Each constructor carries the
data the corresponding Go error formats into its message; `uniqueKey`
models `sql.NewUniqueKeyErr` and carries the conflicting folded triple
with its permission bits. -/
inductive EditErr where
  | expressionsTooLong (branch user host : String)
  | insertingRow (sessUser sessHost branch user host : String) (perms : Permissions)
  | updatingRow (sessUser sessHost branch user host : String)
  | updatingToRow (sessUser sessHost oldBranch oldUser oldHost newBranch : String)
  | deletingRow (sessUser sessHost branch user host : String)
  | uniqueKey (branch user host : String) (perms : Permissions)
  deriving Repr, DecidableEq

/-- The self-authorization gate of `Insert`: with a session present, the
session principal must hold `ADMIN` on the folded branch pattern of the
pre-mutation store; a nil session passes. -/
def insertAuthErr (tbl : Access) (sess : Option Session)
    (branch user host : String) (perms : Permissions) : Option EditErr :=
  match sess with
  | none => none
  | some s =>
    if (tbl.Match branch s.user s.host).2 &&& Permissions_Admin ≠ Permissions_Admin then
      some (.insertingRow s.user s.host branch user host perms)
    else none

/-- The self-authorization gate of `Update`: the session must hold
`ADMIN` on both the old and the new folded branch pattern, checked in
that order against the pre-mutation store. -/
def updateAuthErr (tbl : Access) (sess : Option Session)
    (oldBranch oldUser oldHost newBranch : String) : Option EditErr :=
  match sess with
  | none => none
  | some s =>
    if (tbl.Match oldBranch s.user s.host).2 &&& Permissions_Admin ≠ Permissions_Admin then
      some (.updatingRow s.user s.host oldBranch oldUser oldHost)
    else if (tbl.Match newBranch s.user s.host).2 &&& Permissions_Admin ≠ Permissions_Admin then
      some (.updatingToRow s.user s.host oldBranch oldUser oldHost newBranch)
    else none

/-- The self-authorization gate of `Delete`. -/
def deleteAuthErr (tbl : Access) (sess : Option Session)
    (branch user host : String) : Option EditErr :=
  match sess with
  | none => none
  | some s =>
    if (tbl.Match branch s.user s.host).2 &&& Permissions_Admin ≠ Permissions_Admin then
      some (.deletingRow s.user s.host branch user host)
    else none

/-- Swapping the elements at positions `i` and `j`, as the two
simultaneous Go slice assignments in `delete` do. -/
def listSwap {α : Type} [Inhabited α] (l : List α) (i j : Nat) : List α :=
  (l.set i (l.getD j default)).set j (l.getD i default)

namespace BranchControlTable

/-- The inner `insert` of branch_control_table.go: rejects an exactly
duplicated folded triple as a unique-key violation, otherwise appends the
row to all four parallel arrays, compiling the three patterns with their
column collations. Assumes the strings are already folded. -/
def insert (tbl : Access) (branch user host : String) (perms : Permissions) :
    Access × Option EditErr :=
  match tbl.findTriple branch user host with
  | some tblIndex =>
    (tbl, some (.uniqueKey branch user host (tbl.values.getD tblIndex default).permissions))
  | none =>
    let nextIdx := tbl.values.length
    ({ tbl with
        branches := tbl.branches ++ [⟨nextIdx, ParseExpression branch true⟩]
        users := tbl.users ++ [⟨nextIdx, ParseExpression user false⟩]
        hosts := tbl.hosts ++ [⟨nextIdx, ParseExpression host true⟩]
        values := tbl.values ++ [⟨branch, user, host, perms⟩] }, none)

/-- The inner `delete` of branch_control_table.go: a no-op when the triple
is absent; otherwise swaps the matching row with the last row in all four
parallel arrays and shrinks each by one. Note that the Go code never
reassigns the `CollectionIndex` of the row that survives the swap. -/
def delete (tbl : Access) (branch user host : String) : Access :=
  match tbl.findTriple branch user host with
  | none => tbl
  | some tblIndex =>
    let endIndex := tbl.values.length - 1
    { tbl with
        branches := (listSwap tbl.branches tblIndex endIndex).take endIndex
        users := (listSwap tbl.users tblIndex endIndex).take endIndex
        hosts := (listSwap tbl.hosts tblIndex endIndex).take endIndex
        values := (listSwap tbl.values tblIndex endIndex).take endIndex }

/-- `Insert` of branch_control_table.go: folds the row (lowercasing the
branch and host columns), rejects oversize expressions, runs the
self-authorization gate, rejects subset subsumption (an existing match
already granting `ADMIN`) as a unique-key violation, then runs the inner
`insert`. -/
def Insert (tbl : Access) (sess : Option Session) (row : EditRow) :
    Access × Option EditErr :=
  let branch := lowerFold row.branch
  let user := FoldExpression row.user
  let host := lowerFold row.host
  let perms := row.perms
  if 65535 < branch.utf8ByteSize ∨ 65535 < user.utf8ByteSize ∨ 65535 < host.utf8ByteSize then
    (tbl, some (.expressionsTooLong branch user host))
  else
    match insertAuthErr tbl sess branch user host perms with
    | some e => (tbl, some e)
    | none =>
      let modPerms := (tbl.Match branch user host).2
      if modPerms &&& Permissions_Admin = Permissions_Admin then
        (tbl, some (.uniqueKey branch user host modPerms))
      else insert tbl branch user host perms

/-- `Update` of branch_control_table.go: folds both rows, rejects
oversize new expressions, pre-checks uniqueness of a changed triple,
runs the two-sided self-authorization gate, rejects subset subsumption of
the new triple, then deletes the old row when present and inserts the new
row. -/
def Update (tbl : Access) (sess : Option Session) (old new : EditRow) :
    Access × Option EditErr :=
  let oldBranch := lowerFold old.branch
  let oldUser := FoldExpression old.user
  let oldHost := lowerFold old.host
  let newBranch := lowerFold new.branch
  let newUser := FoldExpression new.user
  let newHost := lowerFold new.host
  let newPerms := new.perms
  if 65535 < newBranch.utf8ByteSize ∨ 65535 < newUser.utf8ByteSize ∨
      65535 < newHost.utf8ByteSize then
    (tbl, some (.expressionsTooLong newBranch newUser newHost))
  else
    let dupErr : Option EditErr :=
      if oldBranch ≠ newBranch ∨ oldUser ≠ newUser ∨ oldHost ≠ newHost then
        match tbl.findTriple newBranch newUser newHost with
        | some tblIndex =>
          some (.uniqueKey newBranch newUser newHost
            (tbl.values.getD tblIndex default).permissions)
        | none => none
      else none
    match dupErr with
    | some e => (tbl, some e)
    | none =>
      match updateAuthErr tbl sess oldBranch oldUser oldHost newBranch with
      | some e => (tbl, some e)
      | none =>
        let modPerms := (tbl.Match newBranch newUser newHost).2
        if modPerms &&& Permissions_Admin = Permissions_Admin then
          (tbl, some (.uniqueKey newBranch newUser newHost modPerms))
        else
          let tbl2 :=
            match tbl.findTriple oldBranch oldUser oldHost with
            | some _ => delete tbl oldBranch oldUser oldHost
            | none => tbl
          insert tbl2 newBranch newUser newHost newPerms

/-- `Delete` of branch_control_table.go: folds the row, runs the
self-authorization gate, then runs the inner `delete` (absent rows
delete as a no-op; the inner delete never fails). -/
def Delete (tbl : Access) (sess : Option Session) (row : EditRow) :
    Access × Option EditErr :=
  let branch := lowerFold row.branch
  let user := FoldExpression row.user
  let host := lowerFold row.host
  match deleteAuthErr tbl sess branch user host with
  | some e => (tbl, some e)
  | none => (delete tbl branch user host, none)

end BranchControlTable

/-- Spec-side: row `i` survives all three matcher passes for the given
query (its user, host and branch patterns all match). -/
def rowMatches (tbl : Access) (branch user host : String) (i : Nat) : Bool :=
  likeMatch (tbl.users.getD i default).sortOrders (candidateWeights false user) &&
    likeMatch (tbl.hosts.getD i default).sortOrders (candidateWeights true host) &&
    likeMatch (tbl.branches.getD i default).sortOrders (candidateWeights true branch)

/-- Spec-side: the indexes of all rows surviving the three passes. -/
def survivors (tbl : Access) (branch user host : String) : List Nat :=
  (List.range tbl.values.length).filter (rowMatches tbl branch user host)

/-- Invariant I2: at every index, the three match expressions carry that
index as their `collection_index`. -/
def collectionIndexesAligned (tbl : Access) : Prop :=
  ∀ i, i < tbl.values.length →
    (tbl.branches.getD i default).collectionIndex = i ∧
    (tbl.users.getD i default).collectionIndex = i ∧
    (tbl.hosts.getD i default).collectionIndex = i

instance (tbl : Access) : Decidable (collectionIndexesAligned tbl) :=
  Nat.decidableBallLT tbl.values.length fun _ _ => _

/-- Whether two rows carry the same folded `(branch, user, host)` triple. -/
def tripleEqB (a b : AccessValue) : Bool :=
  a.branch == b.branch && a.user == b.user && a.host == b.host

/-- Invariant I3 as a boolean: no two rows share a folded triple. -/
def noDupTriples : List AccessValue → Bool
  | [] => true
  | v :: rest => rest.all (fun w => !tripleEqB v w) && noDupTriples rest

/-- Whether an editor result is a rejection with a unique-key violation. -/
def isUniqueKeyRejection : Access × Option EditErr → Bool
  | (_, some (.uniqueKey _ _ _ _)) => true
  | _ => false

/-- An empty store with superuser `root`@`%`, used as concrete input. -/
def emptyRootStore : Access := ⟨[], [], [], [], [], "root", "%"⟩

/-- The store reached from the empty store by inserting `(a,u1,h1,WRITE)`
and `(b,u2,h2,WRITE)` and then deleting `(a,u1,h1)`, all without a
session. -/
def deleteProbeStore : Access :=
  (BranchControlTable.Delete
    ((BranchControlTable.Insert
      ((BranchControlTable.Insert emptyRootStore none ⟨"a", "u1", "h1", 2⟩).1)
      none ⟨"b", "u2", "h2", 2⟩).1)
    none ⟨"a", "u1", "h1", 0⟩).1

/-- C1: the claim (and the spec's swap-and-shrink invariant) says that
after the editor's delete removes a present row by swapping it with the
last row and shrinking, the surviving row moved to position `i` has its
`collection_index` reassigned to `i` in all three match expressions, so
I2 holds after every completed delete. The code never reassigns: after
inserting two rows and deleting the first, the surviving row sits at
position 0 but all three of its match expressions still carry
`collection_index` 1, violating I2 (and making a later `Match` index the
`Values` array out of range). -/
theorem delete_swap_shrink_breaks_alignment :
    deleteProbeStore.values.length = 1 ∧
    (deleteProbeStore.branches.getD 0 default).collectionIndex = 1 ∧
    (deleteProbeStore.users.getD 0 default).collectionIndex = 1 ∧
    (deleteProbeStore.hosts.getD 0 default).collectionIndex = 1 ∧
    ¬ collectionIndexesAligned deleteProbeStore := by decide

theorem utf8Len_replicate_a (n : Nat) :
    String.utf8Len (List.replicate n 'a') = n := by
  induction n with
  | zero => rfl
  | succ k ih =>
    simp [List.replicate_succ, ih, show Char.utf8Size 'a' = 1 from rfl]

/-- A folded string of 65,536 bytes, violating invariant I5. -/
def oversizeStr : String := ⟨List.replicate 65536 'a'⟩

theorem oversizeStr_utf8ByteSize : oversizeStr.utf8ByteSize = 65536 := by
  show String.utf8Len (List.replicate 65536 'a') = 65536
  exact utf8Len_replicate_a 65536

/-- A serialized access table whose vectors all have length one but whose
single row carries a 65,536-byte branch string. -/
def oversizeFb : SerialAccess :=
  ⟨[], [⟨0, []⟩], [⟨0, []⟩], [⟨0, []⟩], [⟨oversizeStr, "u", "h", 2⟩]⟩

/-- C2 counterexample: the claim says `Deserialize` errors whenever the
input violates I5 (a folded string above 65,535 bytes). On an input whose
vectors have equal lengths but whose row carries a 65,536-byte branch
string, and with an empty destination, `Deserialize` succeeds: the code
performs no string-length validation at all. -/
theorem deserialize_accepts_oversize_strings :
    (Access.Deserialize emptyRootStore oversizeFb).isOk = true ∧
    65535 < oversizeStr.utf8ByteSize := by
  refine ⟨rfl, ?_⟩
  rw [oversizeStr_utf8ByteSize]
  decide

/-- C2 (amended): `Deserialize` returns an error iff the destination
store is non-empty or the serialized branches, users, hosts and values
vectors have differing lengths; it never validates string lengths
(invariant I5). -/
theorem deserialize_error_iff_lengths_or_nonempty (tbl : Access) (fb : SerialAccess) :
    (Access.Deserialize tbl fb).isOk = false ↔
      tbl.values.length ≠ 0 ∨ fb.branches.length ≠ fb.users.length ∨
        fb.users.length ≠ fb.hosts.length ∨ fb.hosts.length ≠ fb.values.length := by
  unfold Access.Deserialize
  by_cases h1 : tbl.values.length ≠ 0
  · rw [if_pos h1]
    exact iff_of_true rfl (Or.inl h1)
  · rw [if_neg h1]
    by_cases h2 : fb.branches.length ≠ fb.users.length ∨ fb.users.length ≠ fb.hosts.length ∨
        fb.hosts.length ≠ fb.values.length
    · rw [if_pos h2]
      exact iff_of_true rfl (Or.inr h2)
    · rw [if_neg h2]
      constructor
      · intro hc
        exact absurd hc (by simp [Except.isOk, Except.toBool])
      · intro hor
        cases hor with
        | inl h => exact absurd h h1
        | inr h => exact absurd h h2

/-- C4: whatever the rule table holds (even nothing), a query whose user
and host are exactly the superuser pair short-circuits to
`(true, ADMIN)` for every branch, without consulting the table. -/
theorem match_superuser_short_circuit (binlog : List BinlogRow)
    (branches users hosts : List MatchExpression) (values : List AccessValue)
    (su sh : String) (branch user host : String)
    (hu : user = su) (hh : host = sh) :
    (Access.mk binlog branches users hosts values su sh).Match branch user host =
      (true, Permissions_Admin) := by
  subst hu hh
  simp [Access.Match]

/-- C4 witness: on the empty rule table with superuser `root`@`%`, the
superuser query short-circuits to `(true, ADMIN)`. -/
theorem match_superuser_short_circuit_witness :
    emptyRootStore.Match ("main") ("root") ("%") = (true, Permissions_Admin) :=
  match_superuser_short_circuit [] [] [] [] [] ("root") ("%") ("main") ("root") ("%") rfl rfl

theorem findTriple_eq_none_of_getIndex_neg (tbl : Access) (b u h : String)
    (hg : tbl.GetIndex b u h = -1) : tbl.findTriple b u h = none := by
  unfold Access.GetIndex at hg
  cases hfind : tbl.findTriple b u h with
  | none => rfl
  | some i =>
    rw [hfind] at hg
    simp at hg

/-- C5 counterexample: the claim says that whenever `Match` on the
pre-mutation store over the folded triple of the new row returns
permissions containing `ADMIN`, `Insert` rejects with a unique-key
violation. With a session that lacks `ADMIN` on the branch, the
self-authorization check fires first and the rejection is an
`InsertingRow` error, not a unique-key violation (the antecedent holds:
the probe row carries the superuser pair, so `Match` short-circuits to
`ADMIN`). -/
theorem insert_admin_subsumption_not_unique_key_cex :
    (emptyRootStore.Match (lowerFold ("main")) (FoldExpression ("root"))
        (lowerFold ("%"))).2 &&& Permissions_Admin = Permissions_Admin ∧
    isUniqueKeyRejection
      (BranchControlTable.Insert emptyRootStore (some ⟨"eve", "evehost"⟩)
        ⟨"main", "root", "%", 2⟩) = false ∧
    (BranchControlTable.Insert emptyRootStore (some ⟨"eve", "evehost"⟩)
        ⟨"main", "root", "%", 2⟩).2 =
      some (.insertingRow ("eve") ("evehost") ("main") ("root") ("%") 2) := by decide

/-- C5 (amended): provided the folded expressions pass the length check
and the session self-authorization gate passes (in particular with a nil
session), if `Match` on the pre-mutation store over the folded triple of
the new row returns permissions containing the `ADMIN` bit, then `Insert`
rejects the row with a unique-key violation and leaves the store
unchanged. -/
theorem insert_admin_subsumption_unique_key (tbl : Access) (sess : Option Session)
    (row : EditRow)
    (hlen : ¬(65535 < (lowerFold row.branch).utf8ByteSize ∨
        65535 < (FoldExpression row.user).utf8ByteSize ∨
        65535 < (lowerFold row.host).utf8ByteSize))
    (hauth : insertAuthErr tbl sess (lowerFold row.branch) (FoldExpression row.user)
        (lowerFold row.host) row.perms = none)
    (hadm : (tbl.Match (lowerFold row.branch) (FoldExpression row.user)
        (lowerFold row.host)).2 &&& Permissions_Admin = Permissions_Admin) :
    BranchControlTable.Insert tbl sess row =
      (tbl, some (.uniqueKey (lowerFold row.branch) (FoldExpression row.user)
        (lowerFold row.host)
        ((tbl.Match (lowerFold row.branch) (FoldExpression row.user)
          (lowerFold row.host)).2))) := by
  unfold BranchControlTable.Insert
  rw [if_neg hlen, hauth]
  simp only [if_pos hadm]

/-- C5 witness: on the empty store with a nil session, inserting the
superuser pair makes the subsumption `Match` return `ADMIN`, and the
insert is rejected as a unique-key violation with the store unchanged. -/
theorem insert_admin_subsumption_unique_key_witness :
    (¬(65535 < (lowerFold ("dev")).utf8ByteSize ∨
        65535 < (FoldExpression ("root")).utf8ByteSize ∨
        65535 < (lowerFold ("%")).utf8ByteSize)) ∧
    (emptyRootStore.Match (lowerFold ("dev")) (FoldExpression ("root"))
        (lowerFold ("%"))).2 &&& Permissions_Admin = Permissions_Admin ∧
    BranchControlTable.Insert emptyRootStore none ⟨"dev", "root", "%", 2⟩ =
      (emptyRootStore, some (.uniqueKey (lowerFold ("dev")) (FoldExpression ("root"))
        (lowerFold ("%"))
        ((emptyRootStore.Match (lowerFold ("dev")) (FoldExpression ("root"))
          (lowerFold ("%"))).2))) :=
  ⟨by decide, by decide,
    insert_admin_subsumption_unique_key emptyRootStore none ⟨"dev", "root", "%", 2⟩
      (by decide) rfl (by decide)⟩

/-- C9 counterexample: the claim says a row carrying the exact superuser
pair is always rejected with a unique-key violation. With a session that
lacks `ADMIN`, the self-authorization check fires first: the row is
rejected, but with an `InsertingRow` error instead. -/
theorem insert_superuser_pair_error_kind_cex :
    FoldExpression ("root") = emptyRootStore.superUser ∧
    lowerFold ("%") = emptyRootStore.superHost ∧
    isUniqueKeyRejection
      (BranchControlTable.Insert emptyRootStore (some ⟨"mallory", "mhost"⟩)
        ⟨"main", "root", "%", 2⟩) = false ∧
    (BranchControlTable.Insert emptyRootStore (some ⟨"mallory", "mhost"⟩)
        ⟨"main", "root", "%", 2⟩).2 =
      some (.insertingRow ("mallory") ("mhost") ("main") ("root") ("%") 2) := by decide

/-- C9 (amended): a row whose folded user and host equal the superuser
pair is always rejected — the store is never mutated — and the rejection
is a unique-key violation whenever the folded expressions pass the length
check and the session self-authorization gate passes (in particular with
a nil session); the superuser short-circuit makes the pre-insert
subsumption `Match` return `ADMIN` unconditionally. Otherwise the
rejection carries the earlier check's error. -/
theorem insert_superuser_pair_never_inserted (tbl : Access) (sess : Option Session)
    (row : EditRow)
    (hu : FoldExpression row.user = tbl.superUser)
    (hh : lowerFold row.host = tbl.superHost) :
    (BranchControlTable.Insert tbl sess row).1 = tbl ∧
    (BranchControlTable.Insert tbl sess row).2.isSome = true ∧
    (¬(65535 < (lowerFold row.branch).utf8ByteSize ∨
        65535 < (FoldExpression row.user).utf8ByteSize ∨
        65535 < (lowerFold row.host).utf8ByteSize) →
      insertAuthErr tbl sess (lowerFold row.branch) (FoldExpression row.user)
        (lowerFold row.host) row.perms = none →
      BranchControlTable.Insert tbl sess row =
        (tbl, some (.uniqueKey (lowerFold row.branch) (FoldExpression row.user)
          (lowerFold row.host) Permissions_Admin))) := by
  have hm : tbl.Match (lowerFold row.branch) (FoldExpression row.user)
      (lowerFold row.host) = (true, Permissions_Admin) := by
    simp [Access.Match, hu, hh]
  unfold BranchControlTable.Insert
  by_cases hlen : 65535 < (lowerFold row.branch).utf8ByteSize ∨
      65535 < (FoldExpression row.user).utf8ByteSize ∨
      65535 < (lowerFold row.host).utf8ByteSize
  · rw [if_pos hlen]
    exact ⟨rfl, rfl, fun hc _ => absurd hlen hc⟩
  · rw [if_neg hlen]
    cases hauth : insertAuthErr tbl sess (lowerFold row.branch) (FoldExpression row.user)
        (lowerFold row.host) row.perms with
    | some e =>
      refine ⟨rfl, rfl, fun _ hc => ?_⟩
      cases hc
    | none =>
      have h11 : Permissions_Admin &&& Permissions_Admin = Permissions_Admin := rfl
      refine ⟨?_, ?_, fun _ _ => ?_⟩ <;> simp [hm, h11]

/-- C9 witness: on the empty store with superuser `root`@`%` and a nil
session, inserting `('main','root','%',WRITE)` is rejected as a
unique-key violation with `ADMIN` permission bits and the store is
unchanged. -/
theorem insert_superuser_pair_never_inserted_witness :
    FoldExpression ("root") = emptyRootStore.superUser ∧
    lowerFold ("%") = emptyRootStore.superHost ∧
    ((BranchControlTable.Insert emptyRootStore none ⟨"main", "root", "%", 2⟩).1 =
        emptyRootStore ∧
      (BranchControlTable.Insert emptyRootStore none ⟨"main", "root", "%", 2⟩).2.isSome =
        true ∧
      (¬(65535 < (lowerFold ("main")).utf8ByteSize ∨
          65535 < (FoldExpression ("root")).utf8ByteSize ∨
          65535 < (lowerFold ("%")).utf8ByteSize) →
        insertAuthErr emptyRootStore none (lowerFold ("main")) (FoldExpression ("root"))
          (lowerFold ("%")) 2 = none →
        BranchControlTable.Insert emptyRootStore none ⟨"main", "root", "%", 2⟩ =
          (emptyRootStore, some (.uniqueKey (lowerFold ("main")) (FoldExpression ("root"))
            (lowerFold ("%")) Permissions_Admin)))) :=
  ⟨by decide, by decide,
    insert_superuser_pair_never_inserted emptyRootStore none ⟨"main", "root", "%", 2⟩
      (by decide) (by decide)⟩

/-- C8 counterexample: the claim says a successful insert appends exactly
one entry to the binlog. A concrete successful insert on the empty store
leaves the binlog empty: the editor's inner `insert` never touches the
journal. -/
theorem insert_leaves_binlog_unchanged_cex :
    (BranchControlTable.Insert emptyRootStore none ⟨"main", "alice", "%", 2⟩).2 = none ∧
    (BranchControlTable.Insert emptyRootStore none
        ⟨"main", "alice", "%", 2⟩).1.binlog.length = 0 := by decide

/-- C8 (amended): a successful insert through the editor appends the new
row to all four parallel arrays but appends nothing to the change
journal — the binlog after the insert equals the binlog before it. -/
theorem insert_appends_arrays_not_binlog (tbl : Access) (sess : Option Session)
    (row : EditRow)
    (hok : (BranchControlTable.Insert tbl sess row).2 = none) :
    (BranchControlTable.Insert tbl sess row).1.binlog = tbl.binlog ∧
    (BranchControlTable.Insert tbl sess row).1.values =
      tbl.values ++ [⟨lowerFold row.branch, FoldExpression row.user, lowerFold row.host,
        row.perms⟩] ∧
    (BranchControlTable.Insert tbl sess row).1.branches =
      tbl.branches ++ [⟨tbl.values.length, ParseExpression (lowerFold row.branch) true⟩] ∧
    (BranchControlTable.Insert tbl sess row).1.users =
      tbl.users ++ [⟨tbl.values.length, ParseExpression (FoldExpression row.user) false⟩] ∧
    (BranchControlTable.Insert tbl sess row).1.hosts =
      tbl.hosts ++ [⟨tbl.values.length, ParseExpression (lowerFold row.host) true⟩] := by
  revert hok
  simp only [BranchControlTable.Insert, BranchControlTable.insert]
  split
  · intro hok
    simp at hok
  · split
    · intro hok
      simp at hok
    · split
      · intro hok
        simp at hok
      · split
        · intro hok
          simp at hok
        · intro _
          exact ⟨rfl, rfl, rfl, rfl, rfl⟩

/-- C8 witness: inserting `('dev','bob','%',WRITE)` into the empty store
succeeds, appends to the four arrays, and leaves the binlog unchanged. -/
theorem insert_appends_arrays_not_binlog_witness :
    (BranchControlTable.Insert emptyRootStore none ⟨"dev", "bob", "%", 2⟩).2 = none ∧
    ((BranchControlTable.Insert emptyRootStore none ⟨"dev", "bob", "%", 2⟩).1.binlog =
        emptyRootStore.binlog ∧
      (BranchControlTable.Insert emptyRootStore none ⟨"dev", "bob", "%", 2⟩).1.values =
        emptyRootStore.values ++ [⟨lowerFold ("dev"), FoldExpression ("bob"),
          lowerFold ("%"), 2⟩] ∧
      (BranchControlTable.Insert emptyRootStore none ⟨"dev", "bob", "%", 2⟩).1.branches =
        emptyRootStore.branches ++ [⟨emptyRootStore.values.length,
          ParseExpression (lowerFold ("dev")) true⟩] ∧
      (BranchControlTable.Insert emptyRootStore none ⟨"dev", "bob", "%", 2⟩).1.users =
        emptyRootStore.users ++ [⟨emptyRootStore.values.length,
          ParseExpression (FoldExpression ("bob")) false⟩] ∧
      (BranchControlTable.Insert emptyRootStore none ⟨"dev", "bob", "%", 2⟩).1.hosts =
        emptyRootStore.hosts ++ [⟨emptyRootStore.values.length,
          ParseExpression (lowerFold ("%")) true⟩]) :=
  ⟨by decide, insert_appends_arrays_not_binlog emptyRootStore none ⟨"dev", "bob", "%", 2⟩
    (by decide)⟩

/-- C10: when the folded new expressions pass the length check, the
changed-triple uniqueness pre-check passes, the session authorization
gate passes, the subsumption check passes, and the old row's folded
triple is absent (`GetIndex` returns `-1`), `Update` skips the deletion
and behaves exactly as the inner insert of the new row on the unchanged
store. -/
theorem update_absent_old_row_plain_insert (tbl : Access) (sess : Option Session)
    (old new : EditRow)
    (hlen : ¬(65535 < (lowerFold new.branch).utf8ByteSize ∨
        65535 < (FoldExpression new.user).utf8ByteSize ∨
        65535 < (lowerFold new.host).utf8ByteSize))
    (hgate : (lowerFold old.branch = lowerFold new.branch ∧
        FoldExpression old.user = FoldExpression new.user ∧
        lowerFold old.host = lowerFold new.host) ∨
      tbl.findTriple (lowerFold new.branch) (FoldExpression new.user)
        (lowerFold new.host) = none)
    (hauth : updateAuthErr tbl sess (lowerFold old.branch) (FoldExpression old.user)
        (lowerFold old.host) (lowerFold new.branch) = none)
    (hsub : (tbl.Match (lowerFold new.branch) (FoldExpression new.user)
        (lowerFold new.host)).2 &&& Permissions_Admin ≠ Permissions_Admin)
    (habsent : tbl.GetIndex (lowerFold old.branch) (FoldExpression old.user)
        (lowerFold old.host) = -1) :
    BranchControlTable.Update tbl sess old new =
      BranchControlTable.insert tbl (lowerFold new.branch) (FoldExpression new.user)
        (lowerFold new.host) new.perms := by
  have hfind := findTriple_eq_none_of_getIndex_neg tbl (lowerFold old.branch)
    (FoldExpression old.user) (lowerFold old.host) habsent
  have hdup : (if lowerFold old.branch ≠ lowerFold new.branch ∨
      FoldExpression old.user ≠ FoldExpression new.user ∨
      lowerFold old.host ≠ lowerFold new.host then
      match tbl.findTriple (lowerFold new.branch) (FoldExpression new.user)
        (lowerFold new.host) with
      | some tblIndex =>
        some (EditErr.uniqueKey (lowerFold new.branch) (FoldExpression new.user)
          (lowerFold new.host) (tbl.values.getD tblIndex default).permissions)
      | none => none
    else none) = none := by
    rcases hgate with ⟨h1, h2, h3⟩ | hnone
    · rw [if_neg]
      push_neg
      exact ⟨h1, h2, h3⟩
    · split
      · rw [hnone]
      · rfl
  unfold BranchControlTable.Update
  rw [if_neg hlen]
  simp only [hdup, hauth, if_neg hsub, hfind]

/-- C10 witness: updating an absent row `(x,y,z)` to
`('main','alice','%',WRITE)` on the empty store with a nil session is
exactly the inner insert of the new row. -/
theorem update_absent_old_row_plain_insert_witness :
    (emptyRootStore.GetIndex (lowerFold ("x")) (FoldExpression ("y")) (lowerFold ("z")) = -1) ∧
    BranchControlTable.Update emptyRootStore none ⟨"x", "y", "z", 0⟩ ⟨"main", "alice", "%", 2⟩ =
      BranchControlTable.insert emptyRootStore (lowerFold ("main")) (FoldExpression ("alice"))
        (lowerFold ("%")) 2 :=
  ⟨by decide,
    update_absent_old_row_plain_insert emptyRootStore none ⟨"x", "y", "z", 0⟩
      ⟨"main", "alice", "%", 2⟩ (by decide) (Or.inr (by decide)) rfl (by decide) (by decide)⟩

/-- C7: for an `Update` with a non-null session that passes the length
check and the changed-triple uniqueness pre-check, the session principal
is checked for `ADMIN` by `Match` against the old folded branch pattern
and then against the new folded branch pattern, both on the pre-mutation
store: failure of the first check yields the `UpdatingRow` error and
failure of the second yields the `UpdatingToRow` error, in that order,
with the store unchanged. -/
theorem update_auth_check_order (tbl : Access) (s : Session) (old new : EditRow)
    (hlen : ¬(65535 < (lowerFold new.branch).utf8ByteSize ∨
        65535 < (FoldExpression new.user).utf8ByteSize ∨
        65535 < (lowerFold new.host).utf8ByteSize))
    (hgate : (lowerFold old.branch = lowerFold new.branch ∧
        FoldExpression old.user = FoldExpression new.user ∧
        lowerFold old.host = lowerFold new.host) ∨
      tbl.findTriple (lowerFold new.branch) (FoldExpression new.user)
        (lowerFold new.host) = none) :
    ((tbl.Match (lowerFold old.branch) s.user s.host).2 &&& Permissions_Admin ≠
        Permissions_Admin →
      BranchControlTable.Update tbl (some s) old new =
        (tbl, some (.updatingRow s.user s.host (lowerFold old.branch)
          (FoldExpression old.user) (lowerFold old.host)))) ∧
    ((tbl.Match (lowerFold old.branch) s.user s.host).2 &&& Permissions_Admin =
        Permissions_Admin →
      (tbl.Match (lowerFold new.branch) s.user s.host).2 &&& Permissions_Admin ≠
        Permissions_Admin →
      BranchControlTable.Update tbl (some s) old new =
        (tbl, some (.updatingToRow s.user s.host (lowerFold old.branch)
          (FoldExpression old.user) (lowerFold old.host) (lowerFold new.branch)))) := by
  have hdup : (if lowerFold old.branch ≠ lowerFold new.branch ∨
      FoldExpression old.user ≠ FoldExpression new.user ∨
      lowerFold old.host ≠ lowerFold new.host then
      match tbl.findTriple (lowerFold new.branch) (FoldExpression new.user)
        (lowerFold new.host) with
      | some tblIndex =>
        some (EditErr.uniqueKey (lowerFold new.branch) (FoldExpression new.user)
          (lowerFold new.host) (tbl.values.getD tblIndex default).permissions)
      | none => none
    else none) = none := by
    rcases hgate with ⟨h1, h2, h3⟩ | hnone
    · rw [if_neg]
      push_neg
      exact ⟨h1, h2, h3⟩
    · split
      · rw [hnone]
      · rfl
  unfold BranchControlTable.Update
  rw [if_neg hlen]
  simp only [hdup]
  constructor
  · intro hm1
    simp only [updateAuthErr]
    rw [if_pos hm1]
  · intro hm1 hm2
    simp only [updateAuthErr]
    rw [if_neg (fun hc => hc hm1), if_pos hm2]

/-- C7 witness: with session `alice`@`h` lacking `ADMIN` on the empty
store, an update from `('main','bob','%')` fails the first
self-authorization check and yields the `UpdatingRow` error. -/
theorem update_auth_check_order_witness :
    ((emptyRootStore.Match (lowerFold ("main")) ("alice") ("h")).2 &&& Permissions_Admin ≠
        Permissions_Admin) ∧
    BranchControlTable.Update emptyRootStore (some ⟨"alice", "h"⟩) ⟨"main", "bob", "%", 0⟩
        ⟨"dev", "bob", "%", 2⟩ =
      (emptyRootStore, some (.updatingRow ("alice") ("h") (lowerFold ("main"))
        (FoldExpression ("bob")) (lowerFold ("%")))) :=
  ⟨by decide,
    (update_auth_check_order emptyRootStore ⟨"alice", "h"⟩ ⟨"main", "bob", "%", 0⟩
        ⟨"dev", "bob", "%", 2⟩ (by decide) (Or.inr (by decide))).1 (by decide)⟩

theorem filtmap_collectionIndex (p : MatchExpression → Bool) :
    ∀ (l : List MatchExpression) (k : Nat) (q : Nat → Bool),
      (∀ j, j < l.length → (l.getD j default).collectionIndex = k + j ∧
          p (l.getD j default) = q (k + j)) →
      (l.filter p).map (·.collectionIndex) = (List.range' k l.length).filter q
  | [], _, _, _ => rfl
  | x :: xs, k, q, H => by
    have h0 := H 0 (Nat.succ_pos xs.length)
    rw [List.getD_cons_zero, Nat.add_zero] at h0
    have hxs : ∀ j, j < xs.length → (xs.getD j default).collectionIndex = (k + 1) + j ∧
        p (xs.getD j default) = q ((k + 1) + j) := by
      intro j hj
      have hj2 := H (j + 1) (Nat.succ_lt_succ hj)
      rw [List.getD_cons_succ] at hj2
      have harith : k + (j + 1) = (k + 1) + j := by omega
      rw [harith] at hj2
      exact hj2
    have ih := filtmap_collectionIndex p xs (k + 1) q hxs
    rw [List.length_cons, List.range'_succ]
    cases hpx : p x with
    | true =>
      rw [List.filter_cons_of_pos hpx, List.map_cons, ih, h0.1,
        List.filter_cons_of_pos (by rw [← h0.2]; exact hpx)]
    | false =>
      rw [List.filter_cons_of_neg (by simp [hpx]), ih,
        List.filter_cons_of_neg (by simp [← h0.2, hpx])]

theorem matchColumn_filtered_eq (col : List MatchExpression) (cw : List Nat) (n : Nat)
    (halign : ∀ i, i < n → (col.getD i default).collectionIndex = i) :
    ∀ ids : List Nat, (∀ i ∈ ids, i < n) →
      ((ids.map fun i => col.getD i default).filter
          fun e => likeMatch e.sortOrders cw).map (·.collectionIndex)
        = ids.filter fun i => likeMatch (col.getD i default).sortOrders cw
  | [], _ => rfl
  | i :: rest, hmem => by
    have hi : i < n := hmem i (List.mem_cons_self i rest)
    have hrest : ∀ j ∈ rest, j < n := fun j hj => hmem j (List.mem_cons_of_mem i hj)
    have ih := matchColumn_filtered_eq col cw n halign rest hrest
    rw [List.map_cons]
    cases hp : likeMatch (col.getD i default).sortOrders cw with
    | true =>
      rw [@List.filter_cons_of_pos _ (fun e => likeMatch e.sortOrders cw)
          (col.getD i default) (rest.map fun j => col.getD j default) hp,
        List.map_cons, ih, halign i hi,
        @List.filter_cons_of_pos _ (fun j => likeMatch (col.getD j default).sortOrders cw)
          i rest hp]
    | false =>
      rw [@List.filter_cons_of_neg _ (fun e => likeMatch e.sortOrders cw)
          (col.getD i default) (rest.map fun j => col.getD j default)
          (Bool.eq_false_iff.mp hp),
        ih,
        @List.filter_cons_of_neg _ (fun j => likeMatch (col.getD j default).sortOrders cw)
          i rest (Bool.eq_false_iff.mp hp)]

theorem filterHosts_eq_map (tbl : Access) (filters : List Nat) :
    tbl.filterHosts filters = filters.map fun f => tbl.hosts.getD f default := by
  cases filters with
  | nil => rfl
  | cons a l => rfl

theorem filterBranches_eq_map (tbl : Access) (filters : List Nat) :
    tbl.filterBranches filters = filters.map fun f => tbl.branches.getD f default := by
  cases filters with
  | nil => rfl
  | cons a l => rfl

/-- C3: for a store satisfying I1 and I2 and a query that is not the
superuser pair, `Access.Match` filters the users column first, then the
hosts of the surviving rows, then the branches of those survivors, and
returns `matched = true` iff the final surviving index set is non-empty,
with permissions equal to the bitwise OR of the permissions of all
surviving rows (`0` when none survive). -/
theorem access_match_three_pass_pipeline (tbl : Access) (branch user host : String)
    (hlu : tbl.users.length = tbl.values.length)
    (hlh : tbl.hosts.length = tbl.values.length)
    (hlb : tbl.branches.length = tbl.values.length)
    (hI2 : collectionIndexesAligned tbl)
    (hsuper : ¬(tbl.superUser = user ∧ tbl.superHost = host)) :
    tbl.Match branch user host =
      (decide (0 < (survivors tbl branch user host).length),
        (survivors tbl branch user host).foldl
          (fun perms i => perms ||| (tbl.values.getD i default).permissions) 0) := by
  have hb : ¬((tbl.superUser == user && tbl.superHost == host) = true) := by
    simp only [Bool.and_eq_true, beq_iff_eq]
    exact hsuper
  have e1 : MatchColumn tbl.users user false =
      (List.range tbl.values.length).filter
        fun i => likeMatch (tbl.users.getD i default).sortOrders
          (candidateWeights false user) := by
    have H : ∀ j, j < tbl.users.length →
        (tbl.users.getD j default).collectionIndex = 0 + j ∧
        (fun e => likeMatch e.sortOrders (candidateWeights false user))
            (tbl.users.getD j default) =
          (fun i => likeMatch (tbl.users.getD i default).sortOrders
            (candidateWeights false user)) (0 + j) := by
      intro j hj
      have hjv : j < tbl.values.length := hlu ▸ hj
      refine ⟨?_, ?_⟩
      · rw [Nat.zero_add]
        exact (hI2 j hjv).2.1
      · rw [Nat.zero_add]
    have := filtmap_collectionIndex
      (fun e => likeMatch e.sortOrders (candidateWeights false user)) tbl.users 0
      (fun i => likeMatch (tbl.users.getD i default).sortOrders
        (candidateWeights false user)) H
    rw [List.range_eq_range', ← hlu]
    exact this
  have hmem1 : ∀ i ∈ (List.range tbl.values.length).filter
      (fun i => likeMatch (tbl.users.getD i default).sortOrders
        (candidateWeights false user)), i < tbl.values.length :=
    fun i hi => List.mem_range.mp (List.mem_filter.mp hi).1
  have e3 := matchColumn_filtered_eq tbl.hosts (candidateWeights true host)
    tbl.values.length (fun i hi => (hI2 i hi).2.2) _ hmem1
  have hmem2 : ∀ i ∈ ((List.range tbl.values.length).filter
        fun i => likeMatch (tbl.users.getD i default).sortOrders
          (candidateWeights false user)).filter
      (fun i => likeMatch (tbl.hosts.getD i default).sortOrders
        (candidateWeights true host)), i < tbl.values.length :=
    fun i hi => List.mem_range.mp (List.mem_filter.mp (List.mem_filter.mp hi).1).1
  have e5 := matchColumn_filtered_eq tbl.branches (candidateWeights true branch)
    tbl.values.length (fun i hi => (hI2 i hi).1) _ hmem2
  have efinal : (((List.range tbl.values.length).filter
        fun i => likeMatch (tbl.users.getD i default).sortOrders
          (candidateWeights false user)).filter
      fun i => likeMatch (tbl.hosts.getD i default).sortOrders
        (candidateWeights true host)).filter
        (fun i => likeMatch (tbl.branches.getD i default).sortOrders
          (candidateWeights true branch)) = survivors tbl branch user host := by
    rw [List.filter_filter, List.filter_filter]
    apply List.filter_congr
    intro i _
    simp only [rowMatches]
    cases h1 : likeMatch (tbl.users.getD i default).sortOrders
        (candidateWeights false user) <;>
      cases h2 : likeMatch (tbl.hosts.getD i default).sortOrders
        (candidateWeights true host) <;>
      cases h3 : likeMatch (tbl.branches.getD i default).sortOrders
        (candidateWeights true branch) <;>
      rfl
  have e3m : MatchColumn
      (((List.range tbl.values.length).filter
        fun i => likeMatch (tbl.users.getD i default).sortOrders
          (candidateWeights false user)).map fun f => tbl.hosts.getD f default) host true =
      ((List.range tbl.values.length).filter
        fun i => likeMatch (tbl.users.getD i default).sortOrders
          (candidateWeights false user)).filter
        fun i => likeMatch (tbl.hosts.getD i default).sortOrders
          (candidateWeights true host) := e3
  have e5m : MatchColumn
      ((((List.range tbl.values.length).filter
        fun i => likeMatch (tbl.users.getD i default).sortOrders
          (candidateWeights false user)).filter
        fun i => likeMatch (tbl.hosts.getD i default).sortOrders
          (candidateWeights true host)).map fun f => tbl.branches.getD f default)
        branch true =
      (((List.range tbl.values.length).filter
        fun i => likeMatch (tbl.users.getD i default).sortOrders
          (candidateWeights false user)).filter
        fun i => likeMatch (tbl.hosts.getD i default).sortOrders
          (candidateWeights true host)).filter
        fun i => likeMatch (tbl.branches.getD i default).sortOrders
          (candidateWeights true branch) := e5
  simp only [Access.Match]
  rw [if_neg hb, e1, filterHosts_eq_map, e3m, filterBranches_eq_map, e5m, efinal]
  rfl

/-- A one-row store `('main','alice','%',WRITE)` satisfying I1 and I2. -/
def pipelineProbeStore : Access :=
  ⟨[], [⟨0, ParseExpression ("main") true⟩], [⟨0, ParseExpression ("alice") false⟩],
   [⟨0, ParseExpression ("%") true⟩], [⟨"main", "alice", "%", 2⟩], "root", "%"⟩

/-- C3 witness: on the one-row store, the non-superuser query
`('main','alice','anyhost')` goes through the three-pass pipeline and
returns the survivors and their OR of permissions. -/
theorem access_match_three_pass_pipeline_witness :
    (pipelineProbeStore.users.length = pipelineProbeStore.values.length ∧
      pipelineProbeStore.hosts.length = pipelineProbeStore.values.length ∧
      pipelineProbeStore.branches.length = pipelineProbeStore.values.length ∧
      collectionIndexesAligned pipelineProbeStore ∧
      ¬(pipelineProbeStore.superUser = "alice" ∧
        pipelineProbeStore.superHost = "anyhost")) ∧
    pipelineProbeStore.Match ("main") ("alice") ("anyhost") =
      (decide (0 < (survivors pipelineProbeStore ("main") ("alice") ("anyhost")).length),
        (survivors pipelineProbeStore ("main") ("alice") ("anyhost")).foldl
          (fun perms i => perms ||| (pipelineProbeStore.values.getD i default).permissions)
          0) :=
  ⟨⟨rfl, rfl, rfl, by decide, by decide⟩,
    access_match_three_pass_pipeline pipelineProbeStore ("main") ("alice") ("anyhost")
      rfl rfl rfl (by decide) (by decide)⟩

theorem noDupTriples_getD :
    ∀ (l : List AccessValue), noDupTriples l = true →
      ∀ i j, i < j → j < l.length →
        tripleEqB (l.getD i default) (l.getD j default) = false
  | [], _, _, j, _, hj => absurd hj (Nat.not_lt_zero j)
  | v :: rest, hnd, i, j, hij, hj => by
    simp only [noDupTriples, Bool.and_eq_true, List.all_eq_true] at hnd
    obtain ⟨hall, hrest⟩ := hnd
    cases j with
    | zero => exact absurd hij (Nat.not_lt_zero i)
    | succ j2 =>
      have hj2 : j2 < rest.length := Nat.lt_of_succ_lt_succ hj
      cases i with
      | zero =>
        rw [List.getD_cons_zero, List.getD_cons_succ]
        have hmem : rest.getD j2 default ∈ rest := by
          rw [List.getD_eq_getElem rest default hj2]
          exact List.getElem_mem hj2
        have hb := hall _ hmem
        rw [Bool.not_eq_true'] at hb
        exact hb
      | succ i2 =>
        rw [List.getD_cons_succ, List.getD_cons_succ]
        exact noDupTriples_getD rest hrest i2 j2 (Nat.lt_of_succ_lt_succ hij) hj2

theorem mem_of_mem_swapTake {α : Type} [Inhabited α] {l : List α} {i : Nat}
    (hi : i < l.length) {x : α}
    (hx : x ∈ (listSwap l i (l.length - 1)).take (l.length - 1)) : x ∈ l := by
  have hpos : 0 < l.length := Nat.lt_of_le_of_lt (Nat.zero_le i) hi
  have he : l.length - 1 < l.length := Nat.sub_lt hpos Nat.one_pos
  have hx2 : x ∈ listSwap l i (l.length - 1) := List.mem_of_mem_take hx
  unfold listSwap at hx2
  rcases List.mem_or_eq_of_mem_set hx2 with hx3 | hxe
  · rcases List.mem_or_eq_of_mem_set hx3 with hx4 | hxe2
    · exact hx4
    · rw [hxe2, List.getD_eq_getElem l default he]
      exact List.getElem_mem he
  · rw [hxe, List.getD_eq_getElem l default hi]
    exact List.getElem_mem hi

theorem findIdx?_swapTake_eq_none (l : List AccessValue) (p : AccessValue → Bool)
    (hcongr : ∀ a b, p a = true → p b = true → tripleEqB a b = true)
    (hnd : noDupTriples l = true) (i : Nat) (hfind : List.findIdx? p l = some i) :
    List.findIdx? p ((listSwap l i (l.length - 1)).take (l.length - 1)) = none := by
  obtain ⟨hi, hpi, -⟩ := List.findIdx?_eq_some_iff_getElem.mp hfind
  have hpos : 0 < l.length := Nat.lt_of_le_of_lt (Nat.zero_le i) hi
  have he : l.length - 1 < l.length := Nat.sub_lt hpos Nat.one_pos
  rw [List.findIdx?_eq_none_iff]
  intro x hx
  cases hpx : p x with
  | false => rfl
  | true =>
    exfalso
    have hlm : (listSwap l i (l.length - 1)).length = l.length := by
      unfold listSwap
      rw [List.length_set, List.length_set]
    obtain ⟨j, hj, hxj⟩ := List.mem_iff_getElem.mp hx
    have hj2 := hj
    rw [List.length_take, hlm] at hj2
    have hje : j < l.length - 1 := Nat.lt_of_lt_of_le hj2 (Nat.min_le_left _ _)
    have hjl : j < l.length := Nat.lt_of_lt_of_le hj2 (Nat.min_le_right _ _)
    rw [List.getElem_take] at hxj
    unfold listSwap at hxj
    rw [List.getElem_set, if_neg (show ¬(l.length - 1 = j) by omega),
      List.getElem_set] at hxj
    have hpigetD : p (l.getD i default) = true := by
      rw [List.getD_eq_getElem l default hi]
      exact hpi
    by_cases hij : i = j
    · rw [if_pos hij] at hxj
      have hpe : p (l.getD (l.length - 1) default) = true := by
        rw [hxj]
        exact hpx
      have htrue := hcongr _ _ hpigetD hpe
      have hfalse := noDupTriples_getD l hnd i (l.length - 1) (by omega) he
      rw [hfalse] at htrue
      cases htrue
    · rw [if_neg hij] at hxj
      have hpj : p (l.getD j default) = true := by
        rw [List.getD_eq_getElem l default hjl, hxj]
        exact hpx
      rcases Nat.lt_or_ge i j with hlt | hge
      · have htrue := hcongr _ _ hpigetD hpj
        have hfalse := noDupTriples_getD l hnd i j hlt hjl
        rw [hfalse] at htrue
        cases htrue
      · have hjlt : j < i := Nat.lt_of_le_of_ne hge fun hc => hij hc.symm
        have htrue := hcongr _ _ hpj hpigetD
        have hfalse := noDupTriples_getD l hnd j i hjlt hi
        rw [hfalse] at htrue
        cases htrue

theorem delete_eq_of_found (tbl : Access) (b u h : String) (i : Nat)
    (hold : tbl.findTriple b u h = some i) :
    BranchControlTable.delete tbl b u h = { tbl with
      branches := (listSwap tbl.branches i (tbl.values.length - 1)).take
        (tbl.values.length - 1)
      users := (listSwap tbl.users i (tbl.values.length - 1)).take
        (tbl.values.length - 1)
      hosts := (listSwap tbl.hosts i (tbl.values.length - 1)).take
        (tbl.values.length - 1)
      values := (listSwap tbl.values i (tbl.values.length - 1)).take
        (tbl.values.length - 1) } := by
  unfold BranchControlTable.delete
  rw [hold]

theorem insert_isSome_fst (t : Access) (b u h : String) (perms : Permissions) :
    (BranchControlTable.insert t b u h perms).2.isSome = true →
    (BranchControlTable.insert t b u h perms).1 = t := by
  unfold BranchControlTable.insert
  split
  · intro _
    rfl
  · intro hcon
    simp at hcon

theorem insert_snd_none (t : Access) (b u h : String) (perms : Permissions)
    (hfind : t.findTriple b u h = none) :
    (BranchControlTable.insert t b u h perms).2 = none := by
  unfold BranchControlTable.insert
  rw [hfind]

theorem insert_after_delete_no_error (tbl : Access) (ob ou oh nb nu nh : String)
    (perms : Permissions) (hI3 : noDupTriples tbl.values = true) (i : Nat)
    (hold : tbl.findTriple ob ou oh = some i)
    (hkey : (ob = nb ∧ ou = nu ∧ oh = nh) ∨ tbl.findTriple nb nu nh = none) :
    (BranchControlTable.insert (BranchControlTable.delete tbl ob ou oh)
      nb nu nh perms).2 = none := by
  apply insert_snd_none
  have hi : i < tbl.values.length := by
    have h2 := hold
    unfold Access.findTriple at h2
    obtain ⟨hlt, -, -⟩ := List.findIdx?_eq_some_iff_getElem.mp h2
    exact hlt
  rw [delete_eq_of_found tbl ob ou oh i hold]
  unfold Access.findTriple
  rcases hkey with ⟨e1, e2, e3⟩ | hfnew
  · rw [← e1, ← e2, ← e3]
    have h2 := hold
    unfold Access.findTriple at h2
    apply findIdx?_swapTake_eq_none tbl.values _ ?_ hI3 i h2
    intro a b ha hb
    simp only [Bool.and_eq_true, beq_iff_eq] at ha hb
    simp only [tripleEqB, Bool.and_eq_true, beq_iff_eq]
    exact ⟨⟨ha.1.1.trans hb.1.1.symm, ha.1.2.trans hb.1.2.symm⟩,
      ha.2.trans hb.2.symm⟩
  · have h3 := hfnew
    unfold Access.findTriple at h3
    rw [List.findIdx?_eq_none_iff] at h3
    rw [List.findIdx?_eq_none_iff]
    intro x hx
    exact h3 x (mem_of_mem_swapTake hi hx)

/-- C6: on a store whose rows carry pairwise distinct folded triples
(invariant I3), every call to the editor's `Insert`, `Update` or `Delete`
that returns an error leaves the four parallel arrays (and the whole
store) exactly as they were: every rejection happens before any
mutation. -/
theorem editor_error_leaves_arrays_unchanged (tbl : Access) (sess : Option Session)
    (rowI oldR newR rowD : EditRow)
    (hI3 : noDupTriples tbl.values = true) :
    ((BranchControlTable.Insert tbl sess rowI).2.isSome = true →
      (BranchControlTable.Insert tbl sess rowI).1 = tbl) ∧
    ((BranchControlTable.Update tbl sess oldR newR).2.isSome = true →
      (BranchControlTable.Update tbl sess oldR newR).1 = tbl) ∧
    ((BranchControlTable.Delete tbl sess rowD).2.isSome = true →
      (BranchControlTable.Delete tbl sess rowD).1 = tbl) := by
  refine ⟨?_, ?_, ?_⟩
  · simp only [BranchControlTable.Insert]
    split
    · intro _
      rfl
    · split
      · intro _
        rfl
      · split
        · intro _
          rfl
        · exact insert_isSome_fst tbl (lowerFold rowI.branch) (FoldExpression rowI.user)
            (lowerFold rowI.host) rowI.perms
  · simp only [BranchControlTable.Update]
    by_cases hlen2 : 65535 < (lowerFold newR.branch).utf8ByteSize ∨
        65535 < (FoldExpression newR.user).utf8ByteSize ∨
        65535 < (lowerFold newR.host).utf8ByteSize
    · rw [if_pos hlen2]
      intro _
      rfl
    · rw [if_neg hlen2]
      by_cases hch : lowerFold oldR.branch ≠ lowerFold newR.branch ∨
          FoldExpression oldR.user ≠ FoldExpression newR.user ∨
          lowerFold oldR.host ≠ lowerFold newR.host
      · rw [if_pos hch]
        cases hfnew : tbl.findTriple (lowerFold newR.branch) (FoldExpression newR.user)
            (lowerFold newR.host) with
        | some k =>
          intro _
          rfl
        | none =>
          cases updateAuthErr tbl sess (lowerFold oldR.branch) (FoldExpression oldR.user)
              (lowerFold oldR.host) (lowerFold newR.branch) with
          | some e =>
            intro _
            rfl
          | none =>
            by_cases hsub : (tbl.Match (lowerFold newR.branch) (FoldExpression newR.user)
                (lowerFold newR.host)).2 &&& Permissions_Admin = Permissions_Admin
            · rw [if_pos hsub]
              intro _
              rfl
            · rw [if_neg hsub]
              cases hold : tbl.findTriple (lowerFold oldR.branch)
                  (FoldExpression oldR.user) (lowerFold oldR.host) with
              | none =>
                exact insert_isSome_fst tbl (lowerFold newR.branch)
                  (FoldExpression newR.user) (lowerFold newR.host) newR.perms
              | some i =>
                show (BranchControlTable.insert (BranchControlTable.delete tbl
                    (lowerFold oldR.branch) (FoldExpression oldR.user)
                    (lowerFold oldR.host)) (lowerFold newR.branch)
                    (FoldExpression newR.user) (lowerFold newR.host)
                    newR.perms).2.isSome = true →
                  (BranchControlTable.insert (BranchControlTable.delete tbl
                    (lowerFold oldR.branch) (FoldExpression oldR.user)
                    (lowerFold oldR.host)) (lowerFold newR.branch)
                    (FoldExpression newR.user) (lowerFold newR.host)
                    newR.perms).1 = tbl
                intro hcon
                rw [insert_after_delete_no_error tbl (lowerFold oldR.branch)
                  (FoldExpression oldR.user) (lowerFold oldR.host)
                  (lowerFold newR.branch) (FoldExpression newR.user)
                  (lowerFold newR.host) newR.perms hI3 i hold (Or.inr hfnew)] at hcon
                cases hcon
      · rw [if_neg hch]
        push_neg at hch
        cases updateAuthErr tbl sess (lowerFold oldR.branch) (FoldExpression oldR.user)
            (lowerFold oldR.host) (lowerFold newR.branch) with
        | some e =>
          intro _
          rfl
        | none =>
          by_cases hsub : (tbl.Match (lowerFold newR.branch) (FoldExpression newR.user)
              (lowerFold newR.host)).2 &&& Permissions_Admin = Permissions_Admin
          · rw [if_pos hsub]
            intro _
            rfl
          · rw [if_neg hsub]
            cases hold : tbl.findTriple (lowerFold oldR.branch)
                (FoldExpression oldR.user) (lowerFold oldR.host) with
            | none =>
              exact insert_isSome_fst tbl (lowerFold newR.branch)
                (FoldExpression newR.user) (lowerFold newR.host) newR.perms
            | some i =>
              show (BranchControlTable.insert (BranchControlTable.delete tbl
                  (lowerFold oldR.branch) (FoldExpression oldR.user)
                  (lowerFold oldR.host)) (lowerFold newR.branch)
                  (FoldExpression newR.user) (lowerFold newR.host)
                  newR.perms).2.isSome = true →
                (BranchControlTable.insert (BranchControlTable.delete tbl
                  (lowerFold oldR.branch) (FoldExpression oldR.user)
                  (lowerFold oldR.host)) (lowerFold newR.branch)
                  (FoldExpression newR.user) (lowerFold newR.host)
                  newR.perms).1 = tbl
              intro hcon
              rw [insert_after_delete_no_error tbl (lowerFold oldR.branch)
                (FoldExpression oldR.user) (lowerFold oldR.host)
                (lowerFold newR.branch) (FoldExpression newR.user)
                (lowerFold newR.host) newR.perms hI3 i hold (Or.inl hch)] at hcon
              cases hcon
  · simp only [BranchControlTable.Delete]
    split
    · intro _
      rfl
    · intro hcon
      simp at hcon

/-- A session that holds no permissions on the empty store. -/
def probeSession : Option Session := some ⟨"carl", "chost"⟩

/-- C6 witness: on the empty store (trivially satisfying I3) with a
session lacking `ADMIN`, all three editor calls error and each leaves the
store unchanged. -/
theorem editor_error_leaves_arrays_unchanged_witness :
    noDupTriples emptyRootStore.values = true ∧
    (((BranchControlTable.Insert emptyRootStore probeSession
          ⟨"main", "u", "%", 2⟩).2.isSome = true →
        (BranchControlTable.Insert emptyRootStore probeSession
          ⟨"main", "u", "%", 2⟩).1 = emptyRootStore) ∧
      ((BranchControlTable.Update emptyRootStore probeSession ⟨"a", "b", "c", 0⟩
          ⟨"d", "e", "f", 2⟩).2.isSome = true →
        (BranchControlTable.Update emptyRootStore probeSession ⟨"a", "b", "c", 0⟩
          ⟨"d", "e", "f", 2⟩).1 = emptyRootStore) ∧
      ((BranchControlTable.Delete emptyRootStore probeSession
          ⟨"g", "j", "k", 0⟩).2.isSome = true →
        (BranchControlTable.Delete emptyRootStore probeSession
          ⟨"g", "j", "k", 0⟩).1 = emptyRootStore)) :=
  ⟨rfl, editor_error_leaves_arrays_unchanged emptyRootStore probeSession
    ⟨"main", "u", "%", 2⟩ ⟨"a", "b", "c", 0⟩ ⟨"d", "e", "f", 2⟩ ⟨"g", "j", "k", 0⟩ rfl⟩
